import Mathlib

/-!
Verification development for the TurboSort repository (`turbosort.py`).

The definitions below are a shallow embedding of the program's core:
string/path helpers mirroring the Python stdlib calls the source makes
(`os.path.normpath`, `os.path.join`, `pathlib`'s `/`, `str.strip`,
`os.path.basename`), the S3 listing/diff logic (`S3Handler.list_objects`,
`S3Handler.find_changes`), the delivery engine
(`TurboSorter.process_directory`, in its local and S3 variants),
the ledger (`load_history`, `clean_history`), the destination resolver
(`extract_year` plus the target-directory construction), and the
watchdog event handlers (`FileChangeHandler.on_created` / `on_modified`).

Python dictionaries are modelled as association lists with first-match
lookup and replace-in-place-or-append update, which matches dict
insertion-order semantics.  Fallible external effects (mkdir, copy,
stat/exists, S3 requests) are modelled by explicit environments of
boolean/option-valued functions.  The xxhash digest is an external
library; it is modelled as an abstract function field `hashFn` of the
configuration, about which theorems assume only what the real digest
guarantees (determinism, by being a function, and non-emptiness of the
hex digest where needed).
-/

/-- Association-list lookup: first binding wins, as in a Python dict. -/
def alookup {β : Type} : List (String × β) → String → Option β
  | [], _ => none
  | (k', v) :: t, k => if k' = k then some v else alookup t k

/-- Association-list update: replace the first binding in place, or append
at the end when the key is absent — Python dict assignment semantics. -/
def aupdate {β : Type} : List (String × β) → String → β → List (String × β)
  | [], k, v => [(k, v)]
  | (k', v') :: t, k, v => if k' = k then (k, v) :: t else (k', v') :: aupdate t k v

theorem alookup_aupdate_self {β : Type} (l : List (String × β)) (k : String) (v : β) :
    alookup (aupdate l k v) k = some v := by
  induction l with
  | nil => simp [aupdate, alookup]
  | cons h t ih =>
    by_cases hk : h.1 = k
    · simp [aupdate, hk, alookup]
    · simp [aupdate, hk, alookup, ih]

theorem alookup_aupdate_ne {β : Type} (l : List (String × β)) (k k' : String) (v : β)
    (h : k ≠ k') : alookup (aupdate l k v) k' = alookup l k' := by
  induction l with
  | nil => simp [aupdate, alookup, h]
  | cons hd t ih =>
    by_cases hk : hd.1 = k
    · simp [aupdate, hk, alookup, h]
    · simp [aupdate, hk, alookup, ih]

theorem alookup_eq_none_iff {β : Type} (l : List (String × β)) (k : String) :
    alookup l k = none ↔ ∀ v, (k, v) ∉ l := by
  induction l with
  | nil => simp [alookup]
  | cons hd t ih =>
    obtain ⟨k', v'⟩ := hd
    by_cases hk : k' = k
    · subst hk
      simp only [alookup, if_pos rfl]
      constructor
      · intro h; cases h
      · intro h; exact absurd (List.mem_cons_self _ _) (h v')
    · simp only [alookup, if_neg hk, ih]
      constructor
      · intro h v hv
        rcases List.mem_cons.mp hv with h1 | h1
        · exact hk (congrArg Prod.fst h1).symm
        · exact h v h1
      · intro h v hv; exact h v (List.mem_cons_of_mem _ hv)

theorem alookup_eq_some_iff {β : Type} (l : List (String × β)) (k : String) (v : β)
    (hnd : (l.map Prod.fst).Nodup) : alookup l k = some v ↔ (k, v) ∈ l := by
  induction l with
  | nil => simp [alookup]
  | cons hd t ih =>
    obtain ⟨k', v'⟩ := hd
    simp only [List.map_cons, List.nodup_cons] at hnd
    by_cases hk : k' = k
    · subst hk
      simp only [alookup, if_pos rfl, List.mem_cons]
      constructor
      · intro h
        left
        exact congrArg (fun w => (k', w)) (Option.some.inj h).symm
      · intro h
        rcases h with h1 | h1
        · exact congrArg some (congrArg Prod.snd h1.symm)
        · exact absurd (List.mem_map.mpr ⟨(k', v), h1, rfl⟩) hnd.1
    · simp only [alookup, if_neg hk, ih hnd.2, List.mem_cons]
      constructor
      · intro h; right; exact h
      · intro h
        rcases h with h1 | h1
        · exact absurd (congrArg Prod.fst h1).symm hk
        · exact h1

/-! ### String and path helpers

These mirror the exact Python stdlib functions invoked by the source.
Strings are manipulated through their character lists so that every
definition is structurally recursive and kernel-evaluable. -/

/-- `hasPre s p` models Python `s.startswith(p)`. -/
def hasPre (s p : String) : Bool := p.data.isPrefixOf s.data

/-- `hasSfx s p` models Python `s.endswith(p)`. -/
def hasSfx (s p : String) : Bool := p.data.isSuffixOf s.data

/-- Drop the first `n` characters, as Python slicing `s[n:]`. -/
def strDrop (s : String) (n : Nat) : String := ⟨s.data.drop n⟩

/-- Whitespace test used by Python `str.strip()` (main ASCII cases). -/
def isWS (c : Char) : Bool := c == ' ' || c == '\t' || c == '\n' || c == '\r'

/-- Python `str.strip()`: trim whitespace on both ends. -/
def trimWS (s : String) : String :=
  ⟨((s.data.dropWhile isWS).reverse.dropWhile isWS).reverse⟩

/-- Split a character list on a separator; `splitChars sep []` is `[[]]`,
matching Python `"".split(sep) == [""]`. -/
def splitChars (sep : Char) : List Char → List (List Char)
  | [] => [[]]
  | c :: t =>
    match splitChars sep t with
    | [] => [[c]]
    | h :: r => if c = sep then [] :: h :: r else (c :: h) :: r

/-- Python `s.split('/')`. -/
def splitSlash (s : String) : List String := (splitChars '/' s.data).map String.mk

/-- Python `'/'.join(parts)`. -/
def joinSlash : List String → String
  | [] => ""
  | [c] => c
  | c :: t => c ++ "/" ++ joinSlash t

/-- One step of `posixpath.normpath`'s component scan. -/
def normStep (slashes : Nat) (acc : List String) (comp : String) : List String :=
  if comp = "" ∨ comp = "." then acc
  else if comp ≠ ".." ∨ (slashes = 0 ∧ acc = []) ∨ (acc ≠ [] ∧ acc.getLast? = some "..") then
    acc ++ [comp]
  else if acc ≠ [] then acc.dropLast else acc

/-- `posixpath.normpath`, as called by the source via `os.path.normpath`. -/
def normpath (p : String) : String :=
  if p = "" then "." else
  let slashes : Nat :=
    if hasPre p "//" ∧ ¬ hasPre p "///" then 2 else if hasPre p "/" then 1 else 0
  let comps := (splitSlash p).foldl (normStep slashes) []
  let res := String.mk (List.replicate slashes '/') ++ joinSlash comps
  if res = "" then "." else res

/-- `pathlib`'s `/` operator on `(Path, str)`, for the path shapes the
source builds (non-empty left operand, component-style right operand). -/
def pjoin (a b : String) : String :=
  if hasPre b "/" then b else if hasSfx a "/" then a ++ b else a ++ "/" ++ b

/-- `os.path.join` on two arguments (posix flavour). -/
def joinP (a b : String) : String :=
  if hasPre b "/" then b
  else if hasSfx a "/" then a ++ b
  else if a = "" then b
  else a ++ "/" ++ b

/-- `os.path.basename` (posix). -/
def baseName (s : String) : String := ((splitSlash s).getLast?).getD ""

/-- `os.path.dirname` (posix), for relative keys as used on S3 object keys. -/
def dirName (s : String) : String := joinSlash ((splitSlash s).dropLast)

/-! ### S3 source model (`S3Handler`)

A bucket is the full object list the server would paginate through:
key, content, ETag, size.  A failed request (`ClientError`) is modelled
by passing `none` for the server response. -/

/-- One S3 object as stored in the bucket. -/
structure S3Obj where
  content : String
  etag : String
  size : Nat
deriving DecidableEq, Repr

/-- Listing metadata kept per key (`size`/`etag` fields of `list_objects`). -/
structure S3Meta where
  size : Nat
  etag : String
deriving DecidableEq, Repr

/-- The remote bucket contents, in listing order. -/
abbrev Bucket := List (String × S3Obj)

/-- The prefix actually sent to the server by `S3Handler.list_objects`:
the global `S3_PATH_PREFIX` combined with the per-call prefix via
`os.path.join`, then stripped of one leading slash. -/
def fullPre (gpre p : String) : String :=
  let f := if p ≠ "" then (if gpre ≠ "" then joinP gpre p else p) else gpre
  if hasPre f "/" then strDrop f 1 else f

/-- `S3Handler.list_objects(prefix)`: keys under the combined prefix with
their metadata; on a `ClientError` (`bres = none`) an empty dict. -/
def list_objects (bres : Option Bucket) (gpre p : String) : List (String × S3Meta) :=
  match bres with
  | none => []
  | some b =>
    (b.filter (fun kv => hasPre kv.1 (fullPre gpre p))).map
      (fun kv => (kv.1, ⟨kv.2.size, kv.2.etag⟩))

/-- `S3Handler.read_object(key)`: the object bytes, or `None` on error /
missing key. -/
def read_object (bres : Option Bucket) (k : String) : Option String :=
  match bres with
  | none => none
  | some b => (alookup b k).map S3Obj.content

/-- Result record of `S3Handler.find_changes`. -/
structure Changes where
  newKeys : List String
  modifiedKeys : List String
  deletedKeys : List String
deriving DecidableEq, Repr

/-- `S3Handler.find_changes`, factored over the freshly fetched current
listing: classify keys against `last_known_objects` and return the new
`last_known_objects` (the current listing, wholesale). -/
def find_changes (last current : List (String × S3Meta)) :
    Changes × List (String × S3Meta) :=
  ({ newKeys := (current.filter (fun kv => (alookup last kv.1).isNone)).map Prod.fst
   , modifiedKeys := (current.filter (fun kv =>
        match alookup last kv.1 with
        | some m => decide (m.etag ≠ kv.2.etag)
        | none => false)).map Prod.fst
   , deletedKeys := (last.filter (fun kv => (alookup current kv.1).isNone)).map Prod.fst }
   , current)

/-- One `find_changes` poll tick as the main loop performs it: fetch the
full listing (empty on listing failure) and diff it against the previous
one. -/
def pollTick (last : List (String × S3Meta)) (bres : Option Bucket) (gpre : String) :
    Changes × List (String × S3Meta) :=
  find_changes last (list_objects bres gpre "")

/-! ### Delivery engine model (`TurboSorter`) -/

/-- The marker filename, `TURBOSORT_FILE = '.turbosort'`. -/
def turbosortFile : String := ".turbosort"

/-- One entry of `self.copied_files` / the persisted history.  A record
loaded from an old history file may lack the `identifier` field, hence
`Option` (the source reads it with `.get('identifier')`). -/
structure Record where
  destination : String
  timestamp : Nat
  size : Nat
  identifier : Option String
deriving DecidableEq, Repr

/-- `self.copied_files`: source key to delivery record, dict order. -/
abbrev Ledger := List (String × Record)

/-- The configuration the source reads from environment variables, plus
the external xxhash digest modelled as the abstract function `hashFn`
(`xxhash.xxh64(...).hexdigest()` — deterministic, non-empty output). -/
structure Config where
  destDir : String
  yearOn : Bool
  sfxOn : Bool
  sfx : String
  forceRecopy : Bool
  hashFn : String → String
  nowTs : Nat

/-- Filesystem effects: does `mkdir(parents=True, exist_ok=True)` succeed
for a path, does the byte-copy/write succeed, does a file exist. -/
structure FsEnv where
  mkdirOk : String → Bool
  copyOk : String → Bool
  fileExists : String → Bool

/-- One directory entry as yielded by `Path.iterdir()`. -/
structure DirEntry where
  name : String
  isFile : Bool
  size : Nat
  mtime : Nat
deriving DecidableEq, Repr

/-- A local source directory: its path, the content of its `.turbosort`
file when present, and its direct children. -/
structure LocalDir where
  path : String
  marker : Option String
  entries : List DirEntry
deriving Repr

/-- Does a 19xx/20xx match start right here?  Mirrors one attempt of the
regex `(19\d{2}|20\d{2})` at a fixed position. -/
def matchYearAt : List Char → Option String
  | c1 :: c2 :: c3 :: c4 :: _ =>
    if ((c1 = '1' ∧ c2 = '9') ∨ (c1 = '2' ∧ c2 = '0')) ∧ c3.isDigit ∧ c4.isDigit then
      some (String.mk [c1, c2, c3, c4])
    else none
  | _ => none

/-- `re.search` for the year pattern: try each position left to right. -/
def searchYear : List Char → Option String
  | [] => none
  | c :: rest =>
    match matchYearAt (c :: rest) with
    | some y => some y
    | none => searchYear rest

/-- `TurboSorter.extract_year`. -/
def extract_year (s : String) : Option String :=
  if s = "" then none else searchYear s.data

/-- The target-directory construction of `process_directory` (identical in
the local and S3 branches of the source): year prefixing and drive-suffix
templating.  Also returns whether the no-year warning was logged.  The
`except` fallback around the pure path arithmetic is unreachable (the
`/` operator cannot fail on these operands) and is not modelled. -/
def resolve_target (cfg : Config) (destSub : String) : String × Bool :=
  let plain := if cfg.sfxOn then pjoin (pjoin cfg.destDir destSub) cfg.sfx
               else pjoin cfg.destDir destSub
  if cfg.yearOn then
    match extract_year destSub with
    | some y =>
      if y ≠ "" ∧ y.data.all Char.isDigit ∧ y.length = 4 then
        ((if cfg.sfxOn then pjoin (pjoin (pjoin cfg.destDir y) destSub) cfg.sfx
          else pjoin (pjoin cfg.destDir y) destSub), false)
      else (plain, true)
    | none => (plain, true)
  else (plain, false)

/-- `TurboSorter.get_file_identifier` after the existence check: hash of
`"{path}:{size}:{mtime}"`. -/
def get_file_identifier (cfg : Config) (pathStr : String) (size mtime : Nat) : String :=
  cfg.hashFn (pathStr ++ ":" ++ toString size ++ ":" ++ toString mtime)

/-- The truthiness test on lines 584-585 of the source:
`if stored_identifier and stored_identifier == file_identifier`. -/
def storedMatches (o : Option Record) (fid : String) : Bool :=
  match o with
  | some r =>
    match r.identifier with
    | some s => (s != "") && (s == fid)
    | none => false
  | none => false

/-- A performed copy: source key and destination file. -/
structure CopyOp where
  src : String
  dst : String
deriving DecidableEq, Repr

/-- The candidate enumeration of the local variant (source lines 568-569):
direct children that are regular files and not the marker itself. -/
def localCandidates (d : LocalDir) : List DirEntry :=
  d.entries.filter (fun e => e.isFile && e.name != turbosortFile)

/-- The source key of a local candidate, `str(file_path)`. -/
def localKey (d : LocalDir) (e : DirEntry) : String := pjoin d.path e.name

/-- The per-candidate body of the local `process_directory` loop
(source lines 570-615): vanish re-check, identity computation,
skip-or-copy decision, ledger update. -/
def process_entry (cfg : Config) (env : FsEnv) (d : LocalDir) (target : String)
    (st : Ledger × List CopyOp) (e : DirEntry) : Ledger × List CopyOp :=
  if env.fileExists (localKey d e) = false then st
  else
    let k := localKey d e
    let fid := get_file_identifier cfg k e.size e.mtime
    if !cfg.forceRecopy && storedMatches (alookup st.1 k) fid then st
    else
      let tgt := pjoin target e.name
      if env.mkdirOk target && env.copyOk tgt then
        (aupdate st.1 k ⟨tgt, cfg.nowTs, e.size, some fid⟩, st.2 ++ [⟨k, tgt⟩])
      else st

/-- The local-filesystem branch of `TurboSorter.process_directory`
(source lines 503-618). -/
def process_directory_local (cfg : Config) (env : FsEnv) (led : Ledger) (d : LocalDir) :
    Ledger × List CopyOp :=
  match d.marker with
  | none => (led, [])
  | some content =>
    let ds0 := trimWS content
    if ds0 = "" then (led, [])
    else
      let ds := normpath ds0
      let target := normpath (resolve_target cfg ds).1
      if env.mkdirOk target then
        (localCandidates d).foldl (process_entry cfg env d target) (led, [])
      else (led, [])

/-- S3 directory-path normalization at the top of the S3 branch
(source lines 373-380): strip one leading slash, ensure trailing slash. -/
def s3DirNorm (d : String) : String :=
  let d1 := if hasPre d "/" then strDrop d 1 else d
  if hasSfx d1 "/" then d1 else d1 ++ "/"

/-- The candidate enumeration of the S3 variant (source lines 444-451):
everything `list_objects` returns under the directory prefix, minus keys
ending with the marker filename or a slash. -/
def s3Candidates (bres : Option Bucket) (gpre dp : String) : List (String × S3Meta) :=
  (list_objects bres gpre dp).filter
    (fun kv => !(hasSfx kv.1 turbosortFile) && !(hasSfx kv.1 "/"))

/-- The per-object body of the S3 `process_directory` loop
(source lines 448-498). -/
def process_s3_entry (cfg : Config) (env : FsEnv) (target : String) (bres : Option Bucket)
    (st : Ledger × List CopyOp) (kv : String × S3Meta) : Ledger × List CopyOp :=
  let k := kv.1
  let fname := baseName k
  let fid := cfg.hashFn (k ++ ":" ++ kv.2.etag)
  if !cfg.forceRecopy && storedMatches (alookup st.1 k) fid then st
  else
    let tgt := joinP target fname
    if env.mkdirOk target then
      match read_object bres k with
      | some _ =>
        if env.copyOk tgt then
          (aupdate st.1 k ⟨tgt, cfg.nowTs, kv.2.size, some fid⟩, st.2 ++ [⟨k, tgt⟩])
        else st
      | none => st
    else st

/-- The S3 branch of `TurboSorter.process_directory`
(source lines 371-501). -/
def process_directory_s3 (cfg : Config) (env : FsEnv) (gpre : String)
    (bres : Option Bucket) (led : Ledger) (dir : String) : Ledger × List CopyOp :=
  let dp := s3DirNorm dir
  let tk := dp ++ turbosortFile
  match read_object bres tk with
  | none => (led, [])
  | some content =>
    let ds0 := trimWS content
    if ds0 = "" then (led, [])
    else
      let ds := normpath ds0
      let target := normpath (resolve_target cfg ds).1
      if env.mkdirOk target then
        (s3Candidates bres gpre dp).foldl (process_s3_entry cfg env target bres) (led, [])
      else (led, [])

/-! ### History persistence (`load_history`, `clean_history`) -/

/-- `TurboSorter.load_history`.  The persisted file's state is passed in:
`none` = no history file, `some none` = the file exists but `json.load`
raised, `some (some l)` = it parsed to `l`.  The function always returns
a ledger (the error branch resets to empty); it cannot raise. -/
def load_history (fileState : Option (Option Ledger)) : Ledger :=
  match fileState with
  | none => []
  | some none => []
  | some (some l) => l

/-- Configuration relevant to `clean_history`. -/
structure CleanCfg where
  useS3 : Bool
  inContainer : Bool
  sourceDir : String

/-- Existence probes used by `clean_history`: local `Path.exists()` and
the S3 `head_object` metadata probe (`none` = not found / error). -/
structure CleanEnv where
  existsLocal : String → Bool
  s3meta : String → Option S3Meta

/-- `self.source_container_path`. -/
def sourceContainerPath : String := "/app/source/"

/-- Host-mode path translation inside `clean_history` (source lines
686-693): container paths under `/app/source/` are remapped under the
host source dir; other paths are checked as-is. -/
def cleanTranslate (cfg : CleanCfg) (k : String) : String :=
  if hasPre k "/app/" then
    if hasPre k sourceContainerPath then
      pjoin cfg.sourceDir (strDrop k sourceContainerPath.length)
    else k
  else k

/-- Does `clean_history` mark entry `k` for removal?  (Source lines
659-701.)  Note the eligibility guards: in S3 mode the key is first
stripped of one leading slash and then required not to start with
`/app/`; in container mode only keys under `/app/source/` are checked at
all — everything else is kept via `continue`. -/
def shouldRemove (cfg : CleanCfg) (env : CleanEnv) (k : String) : Bool :=
  if cfg.useS3 then
    let s3k := if hasPre k "/" then strDrop k 1 else k
    if !(hasPre s3k "/app/") then (env.s3meta s3k).isNone else false
  else
    if cfg.inContainer then
      if !(hasPre k sourceContainerPath) then false
      else !(env.existsLocal k)
    else !(env.existsLocal (cleanTranslate cfg k))

/-- `TurboSorter.clean_history`: drop the marked entries, and save the
history once at the end iff anything was removed (the returned `Nat` is
the number of `save_history` calls performed). -/
def clean_history (cfg : CleanCfg) (env : CleanEnv) (led : Ledger) : Ledger × Nat :=
  let toRemove := (led.map Prod.fst).filter (shouldRemove cfg env)
  (led.filter (fun kv => !(shouldRemove cfg env kv.1)),
   if toRemove.isEmpty then 0 else 1)

/-! ### Watchdog handler model (`FileChangeHandler`)

Paths are modelled as `pathlib.PurePosixPath` values: an absolute flag
plus the component list.  `Path('.')` is `⟨false, []⟩`, `Path('/')` is
`⟨true, []⟩`. -/

/-- A `pathlib` path: absolute flag and components. -/
structure PPath where
  absFlag : Bool
  comps : List String
deriving DecidableEq, Repr

/-- `Path('/')`. -/
def rootPath : PPath := ⟨true, []⟩

/-- `path.parent`: drop the last component; the parent of `.` and `/` is
itself, as in `pathlib`. -/
def PPath.parentDir (p : PPath) : PPath :=
  match p.comps with
  | [] => p
  | _ :: _ => ⟨p.absFlag, p.comps.dropLast⟩

/-- `path.name` (empty for `.` and `/`). -/
def PPath.fname (p : PPath) : String := (p.comps.getLast?).getD ""

/-- What a handler invocation does besides mutating the pending set. -/
inductive TrigAction where
  | immediate (dir : PPath)
  | queued (dir : PPath)
  | skip
deriving DecidableEq, Repr

/-- A watchdog event: directory flag and source path. -/
structure WatchEvent where
  isDir : Bool
  path : PPath
deriving DecidableEq, Repr

/-- Adding to the pending set `self.dirs_to_process`. -/
def addPending (pending : List PPath) (dir : PPath) : List PPath :=
  if dir ∈ pending then pending else pending ++ [dir]

/-- The upward walk of `on_created` (source lines 785-791): starting at
the file's parent, stop (empty-handed) on reaching the watched root or
`/`, otherwise return the first directory holding a marker file, else
recurse on the parent.  The source's `while` loop diverges on a relative
path that never meets either stop value; the model returns `none` at the
fixed point `.` instead (watchdog only delivers paths under the watched
root, where that case cannot arise). -/
def findMarkerDir (srcDir : PPath) (markerAt : PPath → Bool) (p : PPath) : Option PPath :=
  if p = srcDir ∨ p = rootPath then none
  else if markerAt p then some p
  else if hc : p.comps = [] then none
  else findMarkerDir srcDir markerAt ⟨p.absFlag, p.comps.dropLast⟩
termination_by p.comps.length
decreasing_by
  simp only [List.length_dropLast]
  have := List.length_pos.mpr hc
  omega

/-- `FileChangeHandler.on_created`: immediate processing for a marker
file, upward marker search and queueing for any other file. -/
def on_created (srcDir : PPath) (markerAt : PPath → Bool) (pending : List PPath)
    (ev : WatchEvent) : List PPath × TrigAction :=
  if ev.isDir then (pending, .skip)
  else if ev.path.fname = turbosortFile then (pending, .immediate ev.path.parentDir)
  else
    match findMarkerDir srcDir markerAt ev.path.parentDir with
    | some dir => (addPending pending dir, .queued dir)
    | none => (pending, .skip)

/-- `FileChangeHandler.on_modified`: immediate processing for a marker
file; any other event is ignored (no queueing branch exists). -/
def on_modified (srcDir : PPath) (markerAt : PPath → Bool) (pending : List PPath)
    (ev : WatchEvent) : List PPath × TrigAction :=
  if ev.isDir then (pending, .skip)
  else if ev.path.fname = turbosortFile then (pending, .immediate ev.path.parentDir)
  else (pending, .skip)

/-- The ancestor chain of a path, from the path itself up to (and
including) `.` or `/`: an independent description of the parent chain,
used to state what the upward walk computes. -/
def chainPaths (p : PPath) : List PPath :=
  ((List.range (p.comps.length + 1)).reverse).map (fun i => ⟨p.absFlag, p.comps.take i⟩)

/-- Stop condition of the upward walk. -/
def walkStop (srcDir q : PPath) : Bool := q == srcDir || q == rootPath

/-! ### Claim theorems -/

/-- C7: Ledger load never fails fatally: a missing history file yields
the empty mapping, a parse failure is logged and yields the empty
mapping, and a successful parse yields its contents; `load_history` is a
total function of the persisted file's state, so no case propagates an
exception to the caller. -/
theorem c7_load_history_never_fatal :
    load_history none = [] ∧ load_history (some none) = [] ∧
    ∀ l : Ledger, load_history (some (some l)) = l :=
  ⟨rfl, rfl, fun _ => rfl⟩

/-- C10: when the remote listing call fails, `list_objects` returns the
empty mapping instead of raising; the diff computed on that tick reports
every previously known key as deleted and none as new or modified,
`last_known_objects` is replaced by the empty mapping, and the next
successful poll reports every key of the fresh listing as new. -/
theorem c10_listing_failure_mass_delete (last : List (String × S3Meta))
    (gpre : String) (l : Bucket) :
    list_objects none gpre "" = [] ∧
    (pollTick last none gpre).1.newKeys = [] ∧
    (pollTick last none gpre).1.modifiedKeys = [] ∧
    (pollTick last none gpre).1.deletedKeys = last.map Prod.fst ∧
    (pollTick last none gpre).2 = [] ∧
    (pollTick [] (some l) gpre).1.newKeys = (list_objects (some l) gpre "").map Prod.fst ∧
    (pollTick [] (some l) gpre).1.modifiedKeys = [] ∧
    (pollTick [] (some l) gpre).1.deletedKeys = [] ∧
    (pollTick [] (some l) gpre).2 = list_objects (some l) gpre "" := by
  refine ⟨rfl, rfl, rfl, ?_, rfl, ?_, ?_, rfl, rfl⟩
  · simp [pollTick, find_changes, list_objects, alookup]
  · simp [pollTick, find_changes, alookup]
  · simp [pollTick, find_changes, alookup]

/-- C8: each poll's diff classifies a key absent from the previous
listing as new, a key present in both with a different ETag as modified,
and a key present before but absent now as deleted; the classes are
pairwise disjoint, and `last_known_objects` is replaced wholesale by the
current listing. -/
theorem c8_find_changes_classification (last current : List (String × S3Meta))
    (hl : (last.map Prod.fst).Nodup) (hc : (current.map Prod.fst).Nodup) :
    (∀ k, k ∈ (find_changes last current).1.newKeys ↔
        ((alookup current k).isSome ∧ alookup last k = none)) ∧
    (∀ k, k ∈ (find_changes last current).1.modifiedKeys ↔
        ∃ mc ml, alookup current k = some mc ∧ alookup last k = some ml ∧
          mc.etag ≠ ml.etag) ∧
    (∀ k, k ∈ (find_changes last current).1.deletedKeys ↔
        ((alookup last k).isSome ∧ alookup current k = none)) ∧
    (∀ k, ¬(k ∈ (find_changes last current).1.newKeys ∧
            k ∈ (find_changes last current).1.modifiedKeys) ∧
          ¬(k ∈ (find_changes last current).1.newKeys ∧
            k ∈ (find_changes last current).1.deletedKeys) ∧
          ¬(k ∈ (find_changes last current).1.modifiedKeys ∧
            k ∈ (find_changes last current).1.deletedKeys)) ∧
    (find_changes last current).2 = current := by
  have hnew : ∀ k, k ∈ (find_changes last current).1.newKeys ↔
      ((alookup current k).isSome ∧ alookup last k = none) := by
    intro k
    simp only [find_changes, List.mem_map, List.mem_filter]
    constructor
    · rintro ⟨⟨k1, m⟩, ⟨hmem, hpred⟩, heq⟩
      simp only at heq
      subst heq
      refine ⟨?_, ?_⟩
      · exact Option.isSome_iff_exists.mpr ⟨m, (alookup_eq_some_iff current k1 m hc).mpr hmem⟩
      · simpa [Option.isNone_iff_eq_none] using hpred
    · rintro ⟨hsome, hnone⟩
      obtain ⟨m, hm⟩ := Option.isSome_iff_exists.mp hsome
      exact ⟨(k, m), ⟨(alookup_eq_some_iff current k m hc).mp hm, by simp [hnone]⟩, rfl⟩
  have hmod : ∀ k, k ∈ (find_changes last current).1.modifiedKeys ↔
      ∃ mc ml, alookup current k = some mc ∧ alookup last k = some ml ∧
        mc.etag ≠ ml.etag := by
    intro k
    simp only [find_changes, List.mem_map, List.mem_filter]
    constructor
    · rintro ⟨⟨k1, m⟩, ⟨hmem, hpred⟩, heq⟩
      simp only at heq
      subst heq
      rcases hml : alookup last k1 with _ | ml
      · rw [hml] at hpred; cases hpred
      · rw [hml] at hpred
        refine ⟨m, ml, (alookup_eq_some_iff current k1 m hc).mpr hmem, rfl, ?_⟩
        exact fun h => (of_decide_eq_true hpred) (h ▸ rfl)
    · rintro ⟨mc, ml, hmc, hml, hne⟩
      refine ⟨(k, mc), ⟨(alookup_eq_some_iff current k mc hc).mp hmc, ?_⟩, rfl⟩
      rw [hml]
      exact decide_eq_true (fun h => hne (h ▸ rfl))
  have hdel : ∀ k, k ∈ (find_changes last current).1.deletedKeys ↔
      ((alookup last k).isSome ∧ alookup current k = none) := by
    intro k
    simp only [find_changes, List.mem_map, List.mem_filter]
    constructor
    · rintro ⟨⟨k1, m⟩, ⟨hmem, hpred⟩, heq⟩
      simp only at heq
      subst heq
      refine ⟨?_, ?_⟩
      · exact Option.isSome_iff_exists.mpr ⟨m, (alookup_eq_some_iff last k1 m hl).mpr hmem⟩
      · simpa [Option.isNone_iff_eq_none] using hpred
    · rintro ⟨hsome, hnone⟩
      obtain ⟨m, hm⟩ := Option.isSome_iff_exists.mp hsome
      exact ⟨(k, m), ⟨(alookup_eq_some_iff last k m hl).mp hm, by simp [hnone]⟩, rfl⟩
  refine ⟨hnew, hmod, hdel, ?_, rfl⟩
  intro k
  refine ⟨?_, ?_, ?_⟩
  · rintro ⟨h1, h2⟩
    obtain ⟨-, hnone⟩ := (hnew k).mp h1
    obtain ⟨-, ml, -, hsome, -⟩ := (hmod k).mp h2
    rw [hnone] at hsome; cases hsome
  · rintro ⟨h1, h2⟩
    obtain ⟨hsome, -⟩ := (hnew k).mp h1
    obtain ⟨-, hnone⟩ := (hdel k).mp h2
    rw [hnone] at hsome; cases hsome
  · rintro ⟨h1, h2⟩
    obtain ⟨mc, -, hsome, -, -⟩ := (hmod k).mp h1
    obtain ⟨-, hnone⟩ := (hdel k).mp h2
    rw [hnone] at hsome; cases hsome

/-- Concrete listings for the C8 witness. -/
def lastW : List (String × S3Meta) := [("a", ⟨1, "e1"⟩), ("b", ⟨2, "e2"⟩)]

/-- Current listing for the C8 witness: `b` re-tagged, `a` gone, `c` new. -/
def currentW : List (String × S3Meta) := [("b", ⟨2, "e9"⟩), ("c", ⟨3, "e3"⟩)]

/-- Witness for C8 at concrete listings. -/
theorem c8_witness :
    ((lastW.map Prod.fst).Nodup ∧ (currentW.map Prod.fst).Nodup) ∧
    ("c" ∈ (find_changes lastW currentW).1.newKeys ↔
      ((alookup currentW "c").isSome ∧ alookup lastW "c" = none)) :=
  ⟨⟨by decide, by decide⟩,
   (c8_find_changes_classification lastW currentW (by decide) (by decide)).1 "c"⟩

/-- `searchYear` returns the leftmost match of the year pattern. -/
theorem searchYear_leftmost (l : List Char) (y : String) (h : searchYear l = some y) :
    ∃ i, matchYearAt (l.drop i) = some y ∧ ∀ j < i, matchYearAt (l.drop j) = none := by
  induction l with
  | nil => cases h
  | cons c rest ih =>
    rcases hm : matchYearAt (c :: rest) with _ | y0
    · rw [searchYear, hm] at h
      obtain ⟨i, hi, hlt⟩ := ih h
      refine ⟨i + 1, by simpa using hi, ?_⟩
      intro j hj
      match j with
      | 0 => simpa using hm
      | j' + 1 => simpa using hlt j' (by omega)
    · rw [searchYear, hm] at h
      cases h
      exact ⟨0, by simpa using hm, by omega⟩

/-- Concrete default-configuration instance used to ground C5. -/
def cfgC5 : Config := ⟨"destination", true, true, "incoming", false, fun _ => "h", 0⟩

/-- C5: with year-prefix enabled, resolution searches the marker
destination for a 4-digit `19xx`/`20xx` run, leftmost match winning:
`"Family/2019/Reunion"` resolves under `destRoot/2019/Family/2019/Reunion`
(suffix appended when enabled), and `"NoYearHere"` resolves under
`destRoot/NoYearHere` (suffix when enabled) with the no-year warning
logged and no fatal error (`resolve_target` is total and returns the
warning flag).  The last two conjuncts evaluate the full pipeline,
including the final re-normalization, at the default configuration. -/
theorem c5_year_prefix_resolution (cfg : Config) (hy : cfg.yearOn = true) :
    extract_year "Family/2019/Reunion" = some "2019" ∧
    resolve_target cfg "Family/2019/Reunion" =
      ((if cfg.sfxOn then pjoin (pjoin (pjoin cfg.destDir "2019") "Family/2019/Reunion") cfg.sfx
        else pjoin (pjoin cfg.destDir "2019") "Family/2019/Reunion"), false) ∧
    extract_year "NoYearHere" = none ∧
    resolve_target cfg "NoYearHere" =
      ((if cfg.sfxOn then pjoin (pjoin cfg.destDir "NoYearHere") cfg.sfx
        else pjoin cfg.destDir "NoYearHere"), true) ∧
    normpath "Family/2019/Reunion" = "Family/2019/Reunion" ∧
    normpath "NoYearHere" = "NoYearHere" ∧
    (∀ s y, extract_year s = some y →
      ∃ i, matchYearAt (s.data.drop i) = some y ∧
        ∀ j < i, matchYearAt (s.data.drop j) = none) ∧
    normpath (resolve_target cfgC5 "Family/2019/Reunion").1
      = "destination/2019/Family/2019/Reunion/incoming" ∧
    normpath (resolve_target cfgC5 "NoYearHere").1
      = "destination/NoYearHere/incoming" := by
  have h1 : extract_year "Family/2019/Reunion" = some "2019" := by decide
  have h2 : extract_year "NoYearHere" = none := by decide
  refine ⟨h1, ?_, h2, ?_, by decide, by decide, ?_, by decide, by decide⟩
  · simp [resolve_target, hy, h1] <;> decide
  · simp [resolve_target, hy, h2]
  · intro s y h
    by_cases hs : s = ""
    · rw [extract_year, if_pos hs] at h; cases h
    · rw [extract_year, if_neg hs] at h
      exact searchYear_leftmost s.data y h

/-- Witness for C5 at the concrete default configuration. -/
theorem c5_witness :
    cfgC5.yearOn = true ∧ extract_year "Family/2019/Reunion" = some "2019" :=
  ⟨rfl, (c5_year_prefix_resolution cfgC5 rfl).1⟩

/-- All-success filesystem environment. -/
def envAll : FsEnv := ⟨fun _ => true, fun _ => true, fun _ => true⟩

/-- Configuration with year prefix and drive suffix disabled. -/
def cfgC2 : Config := ⟨"destination", false, false, "incoming", false, fun _ => "h", 0⟩

/-- Bucket for the C2 counterexample: a marker in `d/` and an object in
the nested subdirectory `d/sub/`. -/
def bucketC2 : Bucket :=
  [("d/.turbosort", ⟨"Clients", "em", 7⟩), ("d/sub/f.txt", ⟨"data", "e1", 4⟩)]

/-- C2 counterexample: processing the S3 directory `d` copies the object
`d/sub/f.txt`, which is not directly inside `d` (its parent is `d/sub`),
so the S3 variant does recurse into subdirectories, contradicting the
claim that both variants enumerate only items directly inside the
directory. -/
theorem c2_counterexample :
    (process_directory_s3 cfgC2 envAll "" (some bucketC2) [] "d").2
      = [⟨"d/sub/f.txt", "destination/Clients/f.txt"⟩] ∧
    dirName "d/sub/f.txt" = "d/sub" ∧ ("d/sub" : String) ≠ "d" := by
  refine ⟨by decide, by decide, by decide⟩

/-- C2 amended: the local variant enumerates exactly the regular files
directly inside the directory other than the marker file; the S3 variant
enumerates every bucket object whose key extends the directory's
combined prefix — including objects in nested subdirectories — except
keys ending with the marker filename or with a slash. -/
theorem c2_amended_candidate_enumeration :
    (∀ (d : LocalDir) (e : DirEntry), e ∈ localCandidates d ↔
      (e ∈ d.entries ∧ e.isFile = true ∧ e.name ≠ turbosortFile)) ∧
    (∀ (b : Bucket) (gpre dp k : String) (m : S3Meta),
      (k, m) ∈ s3Candidates (some b) gpre dp ↔
        ((∃ o : S3Obj, (k, o) ∈ b ∧ m = ⟨o.size, o.etag⟩ ∧
            hasPre k (fullPre gpre dp) = true) ∧
         hasSfx k turbosortFile = false ∧ hasSfx k "/" = false)) := by
  constructor
  · intro d e
    simp [localCandidates, List.mem_filter, bne_iff_ne]
  · intro b gpre dp k m
    simp only [s3Candidates, list_objects, List.mem_filter, List.mem_map,
      Bool.and_eq_true, Bool.not_eq_true']
    constructor
    · rintro ⟨⟨⟨k0, o⟩, ⟨hmem, hpre'⟩, heq⟩, h1, h2⟩
      simp only [Prod.mk.injEq] at heq
      obtain ⟨hk, hm⟩ := heq
      subst hk
      exact ⟨⟨o, hmem, hm.symm, hpre'⟩, h1, h2⟩
    · rintro ⟨⟨o, hmem, hm, hpre'⟩, h1, h2⟩
      exact ⟨⟨(k, o), ⟨hmem, hpre'⟩, by rw [hm]⟩, h1, h2⟩

/-- Environment whose directory creation always fails. -/
def envNoMkdir : FsEnv := ⟨fun _ => false, fun _ => true, fun _ => true⟩

/-- C3: when the final resolved target path fails the re-normalization /
creation step (the `try` around `Path(os.path.normpath(...))` and
`mkdir`), the directory is skipped with a logged error and no file is
copied and no ledger entry written — in both the local and the S3
variant. -/
theorem c3_resolution_failure_no_copy (cfg : Config) (env : FsEnv) (led : Ledger) :
    (∀ (d : LocalDir) (content : String), d.marker = some content →
      trimWS content ≠ "" →
      env.mkdirOk (normpath (resolve_target cfg (normpath (trimWS content))).1) = false →
      process_directory_local cfg env led d = (led, [])) ∧
    (∀ (gpre dir content : String) (bres : Option Bucket),
      read_object bres (s3DirNorm dir ++ turbosortFile) = some content →
      trimWS content ≠ "" →
      env.mkdirOk (normpath (resolve_target cfg (normpath (trimWS content))).1) = false →
      process_directory_s3 cfg env gpre bres led dir = (led, [])) := by
  constructor
  · intro d content hm hne hmk
    simp [process_directory_local, hm, hne, hmk]
  · intro gpre dir content bres hrd hne hmk
    simp [process_directory_s3, hrd, hne, hmk]

/-- Local directory for the C3 witness. -/
def dC3 : LocalDir := ⟨"src/a", some "Clients/Acme", [⟨"f.txt", true, 3, 5⟩]⟩

/-- Witness for C3: with a failing mkdir, processing performs no copy
and leaves the ledger unchanged. -/
theorem c3_witness :
    dC3.marker = some "Clients/Acme" ∧ trimWS "Clients/Acme" ≠ "" ∧
    process_directory_local cfgC2 envNoMkdir [] dC3 = ([], []) :=
  ⟨rfl, by decide,
   (c3_resolution_failure_no_copy cfgC2 envNoMkdir []).1 dC3 "Clients/Acme" rfl
     (by decide) (by decide)⟩

/-- Unfolding of the truthiness test: it holds exactly for a present,
non-empty stored identifier equal to the recomputed one. -/
theorem storedMatches_iff (o : Option Record) (fid : String) :
    storedMatches o fid = true ↔
      ∃ r s, o = some r ∧ r.identifier = some s ∧ s ≠ "" ∧ s = fid := by
  cases o with
  | none => simp [storedMatches]
  | some r =>
    cases hid : r.identifier with
    | none =>
      simp only [storedMatches, hid, Option.some.injEq]
      constructor
      · intro h; cases h
      · rintro ⟨r', s', hr, hs, -, -⟩
        subst hr
        rw [hid] at hs; cases hs
    | some s =>
      simp only [storedMatches, hid, Bool.and_eq_true, bne_iff_ne, beq_iff_eq,
        Option.some.injEq]
      constructor
      · rintro ⟨h1, h2⟩; exact ⟨r, s, rfl, hid, h1, h2⟩
      · rintro ⟨r', s', hr, hs, h1, h2⟩
        subst hr
        rw [hid] at hs
        cases hs
        exact ⟨h1, h2⟩

/-- C9: a ledger record lacking an `identifier` field (or storing an
empty one) is treated as changed: the candidate is re-copied even if
unchanged, and its record is overwritten with one holding the freshly
computed identifier; and the skip branch is taken exactly when a
non-empty stored identifier equals the recomputed one. -/
theorem c9_missing_identifier_recopies (cfg : Config) (env : FsEnv) (d : LocalDir)
    (target : String) (e : DirEntry)
    (hforce : cfg.forceRecopy = false)
    (hfe : env.fileExists (localKey d e) = true)
    (hmk : env.mkdirOk target = true)
    (hcp : env.copyOk (pjoin target e.name) = true) :
    (∀ (led : Ledger) (cps : List CopyOp) (r : Record),
      alookup led (localKey d e) = some r →
      (r.identifier = none ∨ r.identifier = some "") →
      process_entry cfg env d target (led, cps) e =
        (aupdate led (localKey d e)
          ⟨pjoin target e.name, cfg.nowTs, e.size,
           some (get_file_identifier cfg (localKey d e) e.size e.mtime)⟩,
         cps ++ [⟨localKey d e, pjoin target e.name⟩])) ∧
    (∀ (led : Ledger) (cps : List CopyOp),
      (process_entry cfg env d target (led, cps) e).2 = cps ↔
        ∃ r s, alookup led (localKey d e) = some r ∧ r.identifier = some s ∧
          s ≠ "" ∧ s = get_file_identifier cfg (localKey d e) e.size e.mtime) := by
  constructor
  · intro led cps r hl hid
    have hsm : storedMatches (alookup led (localKey d e))
        (get_file_identifier cfg (localKey d e) e.size e.mtime) = false := by
      rcases hid with h | h <;> simp [storedMatches, hl, h]
    simp [process_entry, hfe, hforce, hsm, hmk, hcp]
  · intro led cps
    by_cases hsm : storedMatches (alookup led (localKey d e))
        (get_file_identifier cfg (localKey d e) e.size e.mtime) = true
    · have hpe : process_entry cfg env d target (led, cps) e = (led, cps) := by
        simp [process_entry, hfe, hforce, hsm]
      rw [hpe]
      simp only [true_iff, iff_true]
      obtain ⟨r, s, ho, hi, h1, h2⟩ := (storedMatches_iff _ _).mp hsm
      exact ⟨r, s, ho, hi, h1, h2⟩
    · have hsm' : storedMatches (alookup led (localKey d e))
          (get_file_identifier cfg (localKey d e) e.size e.mtime) = false :=
        Bool.not_eq_true _ ▸ (by simpa using hsm)
      have hpe : process_entry cfg env d target (led, cps) e =
          (aupdate led (localKey d e)
            ⟨pjoin target e.name, cfg.nowTs, e.size,
             some (get_file_identifier cfg (localKey d e) e.size e.mtime)⟩,
           cps ++ [⟨localKey d e, pjoin target e.name⟩]) := by
        simp [process_entry, hfe, hforce, hsm', hmk, hcp]
      rw [hpe]
      constructor
      · intro h
        have := congrArg List.length h
        simp at this
      · rintro ⟨r, s, ho, hi, h1, h2⟩
        exact absurd ((storedMatches_iff _ _).mpr ⟨r, s, ho, hi, h1, h2⟩) hsm
  
/-- Ledger for the C9 witness: the record has no identifier field. -/
def ledC9 : Ledger := [("src/a/f.txt", ⟨"old", 0, 3, none⟩)]

/-- Witness for C9: the identifier-less record is overwritten and the
file re-copied. -/
theorem c9_witness :
    cfgC2.forceRecopy = false ∧
    process_entry cfgC2 envAll dC3 "t" (ledC9, []) ⟨"f.txt", true, 3, 5⟩ =
      (aupdate ledC9 (localKey dC3 ⟨"f.txt", true, 3, 5⟩)
        ⟨pjoin "t" "f.txt", cfgC2.nowTs, 3,
         some (get_file_identifier cfgC2 (localKey dC3 ⟨"f.txt", true, 3, 5⟩) 3 5)⟩,
       [⟨localKey dC3 ⟨"f.txt", true, 3, 5⟩, pjoin "t" "f.txt"⟩]) :=
  ⟨rfl,
   (c9_missing_identifier_recopies cfgC2 envAll dC3 "t" ⟨"f.txt", true, 3, 5⟩
      rfl rfl rfl rfl).1 ledC9 [] ⟨"old", 0, 3, none⟩ (by decide) (Or.inl rfl)⟩

/-- After processing a candidate (with all effects succeeding), its ledger
record matches the recomputed identifier. -/
theorem process_entry_post (cfg : Config) (env : FsEnv) (d : LocalDir) (target : String)
    (hhash : ∀ s, cfg.hashFn s ≠ "")
    (hfe : ∀ p, env.fileExists p = true) (hmk : ∀ p, env.mkdirOk p = true)
    (hcp : ∀ p, env.copyOk p = true)
    (st : Ledger × List CopyOp) (e : DirEntry) :
    storedMatches (alookup (process_entry cfg env d target st e).1 (localKey d e))
      (get_file_identifier cfg (localKey d e) e.size e.mtime) = true := by
  cases hb : (!cfg.forceRecopy && storedMatches (alookup st.1 (localKey d e))
      (get_file_identifier cfg (localKey d e) e.size e.mtime)) with
  | true =>
    have hsm := ((Bool.and_eq_true _ _).mp hb).2
    have heq : process_entry cfg env d target st e = st := by
      simp [process_entry, hfe, hb]
    rw [heq]
    exact hsm
  | false =>
    have heq : process_entry cfg env d target st e =
        (aupdate st.1 (localKey d e)
          ⟨pjoin target e.name, cfg.nowTs, e.size,
           some (get_file_identifier cfg (localKey d e) e.size e.mtime)⟩,
         st.2 ++ [⟨localKey d e, pjoin target e.name⟩]) := by
      simp [process_entry, hfe, hb, hmk, hcp]
    rw [heq]
    simp only [alookup_aupdate_self, storedMatches, Bool.and_eq_true, bne_iff_ne,
      beq_iff_eq]
    exact ⟨hhash _, trivial⟩

/-- Processing one candidate leaves every other key's record alone. -/
theorem process_entry_preserve (cfg : Config) (env : FsEnv) (d : LocalDir)
    (target : String) (st : Ledger × List CopyOp) (e : DirEntry) (k' : String)
    (hne : localKey d e ≠ k') :
    alookup (process_entry cfg env d target st e).1 k' = alookup st.1 k' := by
  by_cases h0 : env.fileExists (localKey d e) = false
  · simp [process_entry, h0]
  · cases hb : (!cfg.forceRecopy && storedMatches (alookup st.1 (localKey d e))
        (get_file_identifier cfg (localKey d e) e.size e.mtime)) with
    | true => simp [process_entry, h0, hb]
    | false =>
      cases hc : (env.mkdirOk target && env.copyOk (pjoin target e.name)) with
      | true => simp [process_entry, h0, hb, hc, alookup_aupdate_ne _ _ _ _ hne]
      | false => simp [process_entry, h0, hb, hc]

/-- The candidate fold leaves unrelated keys alone. -/
theorem fold_entries_preserve (cfg : Config) (env : FsEnv) (d : LocalDir)
    (target : String) (cs : List DirEntry) (st : Ledger × List CopyOp) (k' : String)
    (h : ∀ e ∈ cs, localKey d e ≠ k') :
    alookup (cs.foldl (process_entry cfg env d target) st).1 k' = alookup st.1 k' := by
  induction cs generalizing st with
  | nil => rfl
  | cons e t ih =>
    rw [List.foldl_cons]
    rw [ih (process_entry cfg env d target st e) (fun e' he' => h e' (List.mem_cons_of_mem _ he'))]
    exact process_entry_preserve cfg env d target st e k' (h e (List.mem_cons_self _ _))

/-- After the candidate fold (all effects succeeding, candidate keys
distinct), every candidate's ledger record matches its recomputed
identifier. -/
theorem fold_entries_post (cfg : Config) (env : FsEnv) (d : LocalDir) (target : String)
    (hhash : ∀ s, cfg.hashFn s ≠ "")
    (hfe : ∀ p, env.fileExists p = true) (hmk : ∀ p, env.mkdirOk p = true)
    (hcp : ∀ p, env.copyOk p = true)
    (cs : List DirEntry) (st : Ledger × List CopyOp)
    (hnd : (cs.map (localKey d)).Nodup) :
    ∀ e ∈ cs, storedMatches
      (alookup (cs.foldl (process_entry cfg env d target) st).1 (localKey d e))
      (get_file_identifier cfg (localKey d e) e.size e.mtime) = true := by
  induction cs generalizing st with
  | nil => intro e he; cases he
  | cons e0 t ih =>
    simp only [List.map_cons, List.nodup_cons] at hnd
    intro e he
    rcases List.mem_cons.mp he with h1 | h1
    · subst h1
      rw [List.foldl_cons]
      have hpres : alookup
          (t.foldl (process_entry cfg env d target)
            (process_entry cfg env d target st e)).1 (localKey d e)
          = alookup (process_entry cfg env d target st e).1 (localKey d e) := by
        refine fold_entries_preserve cfg env d target t _ _ ?_
        intro e' he' heq
        exact hnd.1 (List.mem_map.mpr ⟨e', he', heq⟩)
      rw [hpres]
      exact process_entry_post cfg env d target hhash hfe hmk hcp st e
    · rw [List.foldl_cons]
      exact ih (process_entry cfg env d target st e0) hnd.2 e h1

/-- A candidate whose stored identifier matches is skipped outright. -/
theorem process_entry_skip (cfg : Config) (env : FsEnv) (d : LocalDir) (target : String)
    (hforce : cfg.forceRecopy = false) (hfe : ∀ p, env.fileExists p = true)
    (st : Ledger × List CopyOp) (e : DirEntry)
    (hsm : storedMatches (alookup st.1 (localKey d e))
      (get_file_identifier cfg (localKey d e) e.size e.mtime) = true) :
    process_entry cfg env d target st e = st := by
  simp [process_entry, hfe, hforce, hsm]

/-- If every candidate's stored identifier already matches, the fold is
the identity: no copy, no ledger change. -/
theorem fold_entries_skip (cfg : Config) (env : FsEnv) (d : LocalDir) (target : String)
    (hforce : cfg.forceRecopy = false) (hfe : ∀ p, env.fileExists p = true)
    (cs : List DirEntry) (st : Ledger × List CopyOp)
    (hall : ∀ e ∈ cs, storedMatches (alookup st.1 (localKey d e))
      (get_file_identifier cfg (localKey d e) e.size e.mtime) = true) :
    cs.foldl (process_entry cfg env d target) st = st := by
  induction cs with
  | nil => rfl
  | cons e t ih =>
    rw [List.foldl_cons,
      process_entry_skip cfg env d target hforce hfe st e (hall e (List.mem_cons_self _ _))]
    exact ih (fun e' he' => hall e' (List.mem_cons_of_mem _ he'))

/-- C1: with force-recopy off and the directory unchanged between two
consecutive invocations (same marker, same candidates, all effects
succeeding, candidate keys distinct), the second invocation performs
zero copies and leaves the ledger unchanged: every candidate is skipped
because its stored identifier equals the recomputed one. -/
theorem c1_second_run_copies_nothing (cfg : Config) (env : FsEnv) (led : Ledger)
    (d : LocalDir)
    (hforce : cfg.forceRecopy = false)
    (hhash : ∀ s, cfg.hashFn s ≠ "")
    (hfe : ∀ p, env.fileExists p = true)
    (hmk : ∀ p, env.mkdirOk p = true)
    (hcp : ∀ p, env.copyOk p = true)
    (hnd : ((localCandidates d).map (localKey d)).Nodup) :
    process_directory_local cfg env (process_directory_local cfg env led d).1 d
      = ((process_directory_local cfg env led d).1, []) := by
  cases hm : d.marker with
  | none => simp [process_directory_local, hm]
  | some content =>
    by_cases hds : trimWS content = ""
    · simp [process_directory_local, hm, hds]
    · have hrun : ∀ l : Ledger, process_directory_local cfg env l d =
          (localCandidates d).foldl
            (process_entry cfg env d
              (normpath (resolve_target cfg (normpath (trimWS content))).1)) (l, []) := by
        intro l
        simp [process_directory_local, hm, hds, hmk]
      rw [hrun led, hrun]
      have hpost := fold_entries_post cfg env d
        (normpath (resolve_target cfg (normpath (trimWS content))).1)
        hhash hfe hmk hcp (localCandidates d) (led, []) hnd
      exact fold_entries_skip cfg env d _ hforce hfe (localCandidates d) _ hpost

/-- Witness for C1 at a concrete directory and configuration. -/
theorem c1_witness :
    cfgC2.forceRecopy = false ∧
    process_directory_local cfgC2 envAll (process_directory_local cfgC2 envAll [] dC3).1 dC3
      = ((process_directory_local cfgC2 envAll [] dC3).1, []) :=
  ⟨rfl,
   c1_second_run_copies_nothing cfgC2 envAll [] dC3 rfl
     (fun _ => show ("h" : String) ≠ "" by decide)
     (fun _ => rfl) (fun _ => rfl) (fun _ => rfl) (by decide)⟩

/-- The ancestor chain of a componentless path is just the path itself. -/
theorem chainPaths_nil (p : PPath) (h : p.comps = []) : chainPaths p = [p] := by
  obtain ⟨ab, cs⟩ := p
  simp only at h
  subst h
  rfl

/-- The ancestor chain steps to the parent. -/
theorem chainPaths_cons (p : PPath) (h : p.comps ≠ []) :
    chainPaths p = p :: chainPaths ⟨p.absFlag, p.comps.dropLast⟩ := by
  obtain ⟨ab, cs⟩ := p
  simp only at h
  have hpos : 0 < cs.length := List.length_pos.mpr h
  have hlen : cs.length - 1 + 1 = cs.length := Nat.succ_pred_eq_of_pos hpos
  simp only [chainPaths, List.length_dropLast]
  rw [List.range_succ, List.reverse_append, hlen]
  simp only [List.reverse_cons, List.reverse_nil, List.nil_append, List.singleton_append,
    List.map_cons]
  congr 1
  · simp [List.take_length]
  · refine List.map_congr_left ?_
    intro i hi
    simp only [List.mem_reverse, List.mem_range] at hi
    simp [List.dropLast_eq_take, List.take_take, Nat.min_eq_left (by omega : i ≤ cs.length - 1)]

/-- The walk-versus-chain correspondence, componentless case. -/
theorem findMarkerDir_chain_nil (srcDir : PPath) (markerAt : PPath → Bool) (q : PPath)
    (hqc : q.comps = []) :
    findMarkerDir srcDir markerAt q =
      ((chainPaths q).takeWhile (fun r => !walkStop srcDir r)).find? markerAt := by
  rw [chainPaths_nil q hqc]
  by_cases hstop : q = srcDir ∨ q = rootPath
  · have hws : walkStop srcDir q = true := by
      rcases hstop with h | h <;> simp [walkStop, h]
    rw [findMarkerDir]
    simp [hstop, hws, List.takeWhile_cons]
  · obtain ⟨h1, h2⟩ := not_or.mp hstop
    have hws : walkStop srcDir q = false := by simp [walkStop, h1, h2]
    by_cases hm : markerAt q = true
    · rw [findMarkerDir]
      simp [hstop, hm, hws, List.takeWhile_cons]
    · rw [findMarkerDir]
      simp [hstop, hm, hws, hqc, List.takeWhile_cons]

/-- The upward walk of `on_created` computes exactly the first marker
directory on the ancestor chain, cut off (exclusively) at the watched
root or `/` — i.e. the nearest eligible ancestor with a marker. -/
theorem findMarkerDir_eq_chain (srcDir : PPath) (markerAt : PPath → Bool) (p : PPath) :
    findMarkerDir srcDir markerAt p =
      ((chainPaths p).takeWhile (fun r => !walkStop srcDir r)).find? markerAt := by
  suffices h : ∀ n (q : PPath), q.comps.length ≤ n →
      findMarkerDir srcDir markerAt q =
        ((chainPaths q).takeWhile (fun r => !walkStop srcDir r)).find? markerAt from
    h p.comps.length p le_rfl
  intro n
  induction n with
  | zero =>
    intro q hq
    exact findMarkerDir_chain_nil srcDir markerAt q
      (List.length_eq_zero.mp (Nat.le_zero.mp hq))
  | succ n ih =>
    intro q hq
    by_cases hqc : q.comps = []
    · exact findMarkerDir_chain_nil srcDir markerAt q hqc
    · rw [chainPaths_cons q hqc]
      by_cases hstop : q = srcDir ∨ q = rootPath
      · have hws : walkStop srcDir q = true := by
          rcases hstop with h | h <;> simp [walkStop, h]
        rw [findMarkerDir]
        simp [hstop, hws, List.takeWhile_cons]
      · obtain ⟨h1, h2⟩ := not_or.mp hstop
        have hws : walkStop srcDir q = false := by simp [walkStop, h1, h2]
        by_cases hm : markerAt q = true
        · rw [findMarkerDir]
          simp [hstop, hm, hws, List.takeWhile_cons]
        · have hlen : (PPath.mk q.absFlag q.comps.dropLast).comps.length ≤ n := by
            simp only [List.length_dropLast]
            have := List.length_pos.mpr hqc
            omega
          rw [findMarkerDir]
          simp only [hstop, hm, hqc, hws, List.takeWhile_cons, if_false, dite_false,
            Bool.not_false, if_true, ite_true, Bool.false_eq_true, dite_eq_ite]
          rw [ih _ hlen]
          simp [hm]

/-- Watched root for the C4 counterexample. -/
def srcC4 : PPath := ⟨false, ["source"]⟩

/-- Marker layout for the C4 counterexample: only `source/d` holds a
marker file. -/
def markerEnvC4 : PPath → Bool := fun p => p == (⟨false, ["source", "d"]⟩ : PPath)

/-- Event for the C4 counterexample: a non-marker file modified inside
`source/d`. -/
def evC4 : WatchEvent := ⟨false, ⟨false, ["source", "d", "f.txt"]⟩⟩

/-- C4 counterexample: a modify event on a non-marker file whose parent
directory does contain a marker queues nothing — `on_modified` has no
upward-walk branch — contradicting the claim that create **or modify**
events on other files add the nearest marker directory to the pending
set. -/
theorem c4_counterexample :
    markerEnvC4 evC4.path.parentDir = true ∧
    evC4.path.fname ≠ turbosortFile ∧
    on_modified srcC4 markerEnvC4 [] evC4 = ([], TrigAction.skip) :=
  ⟨by decide, by decide, by decide⟩

/-- C4 amended: a create or modify event on a marker file triggers an
immediate synchronous `process_directory` on the file's directory; a
**create** event on any other non-directory file walks upward from the
file's parent — stopping before the watched root and `/` — to the
nearest ancestor holding a marker and, if found, adds it to the pending
set; a **modify** event on any other file is ignored. -/
theorem c4_amended_event_dispatch (srcDir : PPath) (markerAt : PPath → Bool)
    (pending : List PPath) (ev : WatchEvent) (hnd : ev.isDir = false) :
    (ev.path.fname = turbosortFile →
      on_created srcDir markerAt pending ev = (pending, .immediate ev.path.parentDir) ∧
      on_modified srcDir markerAt pending ev = (pending, .immediate ev.path.parentDir)) ∧
    (ev.path.fname ≠ turbosortFile →
      on_modified srcDir markerAt pending ev = (pending, .skip) ∧
      on_created srcDir markerAt pending ev =
        (match ((chainPaths ev.path.parentDir).takeWhile
            (fun q => !walkStop srcDir q)).find? markerAt with
         | some dir => (addPending pending dir, .queued dir)
         | none => (pending, .skip)) ∧
      (∀ dir, ((chainPaths ev.path.parentDir).takeWhile
          (fun q => !walkStop srcDir q)).find? markerAt = some dir →
        markerAt dir = true)) := by
  constructor
  · intro hm
    exact ⟨by simp [on_created, hnd, hm], by simp [on_modified, hnd, hm]⟩
  · intro hm
    refine ⟨by simp [on_modified, hnd, hm], ?_, ?_⟩
    · rw [on_created.eq_def]
      simp only [hnd, hm, Bool.false_eq_true, if_false, ite_false]
      rw [findMarkerDir_eq_chain]
    · intro dir hdir
      exact List.find?_some hdir

/-- Witness for C4 at the concrete counterexample event. -/
theorem c4_witness :
    evC4.isDir = false ∧ evC4.path.fname ≠ turbosortFile ∧
    on_modified srcC4 markerEnvC4 [] evC4 = ([], TrigAction.skip) :=
  ⟨rfl, by decide,
   ((c4_amended_event_dispatch srcC4 markerEnvC4 [] evC4 rfl).2 (by decide)).1⟩

/-- Container-mode configuration for the C6 counterexample. -/
def cfgC6 : CleanCfg := ⟨false, true, "source"⟩

/-- Environment for the C6 counterexample: nothing exists anywhere. -/
def envC6 : CleanEnv := ⟨fun _ => false, fun _ => none⟩

/-- Ledger record for the C6 counterexample. -/
def recC6 : Record := ⟨"dest/f", 0, 1, some "id"⟩

/-- C6 counterexample: in container mode, a ledger entry whose key is not
under `/app/source/` is kept (and nothing is persisted) even though its
source file no longer exists — the reconciliation pass skips it via
`continue` instead of checking it — contradicting the claim that every
entry whose source item no longer exists is removed. -/
theorem c6_counterexample :
    envC6.existsLocal "/data/f" = false ∧
    clean_history cfgC6 envC6 [("/data/f", recC6)] = ([("/data/f", recC6)], 0) :=
  ⟨rfl, by decide⟩

/-- C6 amended: the reconciliation pass removes exactly the entries that
are *eligible for checking* and whose existence check fails — in
container mode only keys under `/app/source/` are ever checked (others
are kept unconditionally), in host mode every key is checked at its
translated path, in S3 mode keys are probed after stripping one leading
slash (when the stripped key does not begin with `/app/`) — it removes
no entry whose check succeeds, and it persists the ledger exactly once
at the end iff at least one entry was removed. -/
theorem c6_amended_prune_eligible_only (cfg : CleanCfg) (env : CleanEnv) (led : Ledger) :
    (∀ k r, (k, r) ∈ (clean_history cfg env led).1 → (k, r) ∈ led) ∧
    (∀ k r, (k, r) ∈ led → shouldRemove cfg env k = false →
      (k, r) ∈ (clean_history cfg env led).1) ∧
    (∀ k r, (k, r) ∈ led → shouldRemove cfg env k = true →
      (k, r) ∉ (clean_history cfg env led).1) ∧
    (∀ k r, cfg.useS3 = false → cfg.inContainer = true →
      hasPre k sourceContainerPath = false → (k, r) ∈ led →
      (k, r) ∈ (clean_history cfg env led).1) ∧
    (∀ k r, cfg.useS3 = false → cfg.inContainer = true →
      hasPre k sourceContainerPath = true → env.existsLocal k = false →
      (k, r) ∈ led → (k, r) ∉ (clean_history cfg env led).1) ∧
    (∀ k r, cfg.useS3 = false → cfg.inContainer = false → (k, r) ∈ led →
      ((k, r) ∈ (clean_history cfg env led).1 ↔
        env.existsLocal (cleanTranslate cfg k) = true)) ∧
    (∀ k r, cfg.useS3 = true →
      hasPre (if hasPre k "/" then strDrop k 1 else k) "/app/" = false →
      (k, r) ∈ led →
      ((k, r) ∈ (clean_history cfg env led).1 ↔
        (env.s3meta (if hasPre k "/" then strDrop k 1 else k)).isSome)) ∧
    ((clean_history cfg env led).2 ≤ 1 ∧
     ((clean_history cfg env led).2 = 0 ↔ (clean_history cfg env led).1 = led)) := by
  have hmem : ∀ k r, (k, r) ∈ (clean_history cfg env led).1 ↔
      ((k, r) ∈ led ∧ shouldRemove cfg env k = false) := by
    intro k r
    simp [clean_history, List.mem_filter]
  refine ⟨?_, ?_, ?_, ?_, ?_, ?_, ?_, ?_⟩
  · intro k r h; exact ((hmem k r).mp h).1
  · intro k r h hs; exact (hmem k r).mpr ⟨h, hs⟩
  · intro k r h hs hmemc
    rw [(hmem k r).mp hmemc |>.2] at hs
    cases hs
  · intro k r h3 hcont hpre h
    refine (hmem k r).mpr ⟨h, ?_⟩
    simp [shouldRemove, h3, hcont, hpre]
  · intro k r h3 hcont hpre hex h hmemc
    have hs : shouldRemove cfg env k = true := by
      simp [shouldRemove, h3, hcont, hpre, hex]
    rw [(hmem k r).mp hmemc |>.2] at hs
    cases hs
  · intro k r h3 hcont h
    rw [hmem k r]
    have hs : shouldRemove cfg env k = !(env.existsLocal (cleanTranslate cfg k)) := by
      simp [shouldRemove, h3, hcont]
    rw [hs]
    cases henv : env.existsLocal (cleanTranslate cfg k) <;> simp [h]
  · intro k r h3 hpre h
    rw [hmem k r]
    have hs : shouldRemove cfg env k =
        (env.s3meta (if hasPre k "/" then strDrop k 1 else k)).isNone := by
      simp [shouldRemove, h3, hpre]
    rw [hs]
    cases henv : env.s3meta (if hasPre k "/" then strDrop k 1 else k) <;> simp [h, henv]
  · constructor
    · by_cases hemp : ((led.map Prod.fst).filter (shouldRemove cfg env)).isEmpty = true <;>
        simp [clean_history, hemp]
    · constructor
      · intro h0
        have hemp : ((led.map Prod.fst).filter (shouldRemove cfg env)).isEmpty = true := by
          by_contra hne
          simp [clean_history, hne] at h0
        have hnil := List.isEmpty_iff.mp hemp
        have hall : ∀ a ∈ led.map Prod.fst, ¬ shouldRemove cfg env a = true :=
          List.filter_eq_nil_iff.mp hnil
        simp only [clean_history]
        refine List.filter_eq_self.mpr ?_
        intro kv hkv
        have := hall kv.1 (List.mem_map.mpr ⟨kv, hkv, rfl⟩)
        simp [Bool.not_eq_true] at this
        simp [this]
      · intro hfl
        have hall : ∀ kv ∈ led, (!(shouldRemove cfg env kv.1)) = true := by
          refine List.filter_eq_self.mp ?_
          simpa [clean_history] using hfl
        have hnil : (led.map Prod.fst).filter (shouldRemove cfg env) = [] := by
          refine List.filter_eq_nil_iff.mpr ?_
          intro a ha
          obtain ⟨kv, hkv, hk⟩ := List.mem_map.mp ha
          subst hk
          have := hall kv hkv
          simp [Bool.not_eq_true'] at this
          simp [this]
        simp [clean_history, hnil]

/-- Witness for C6 amended at concrete inputs: the same container-mode
ledger as the counterexample is fully retained. -/
theorem c6_witness :
    ((("/data/f", recC6) : String × Record) ∈ ([("/data/f", recC6)] : Ledger) ∧
      shouldRemove cfgC6 envC6 "/data/f" = false) ∧
    (("/data/f", recC6) : String × Record) ∈
      (clean_history cfgC6 envC6 [("/data/f", recC6)]).1 :=
  ⟨⟨by decide, by decide⟩,
   (c6_amended_prune_eligible_only cfgC6 envC6 [("/data/f", recC6)]).2.1
     "/data/f" recC6 (by decide) (by decide)⟩
